import Mathlib

/-!
Verification of the plugin context-sharing subsystem of the kn CLI
(source file pkg/kn/plugin/context_sharing.go).

The Go maps involved (ContextData, Producers, Consumers, Manifests) are
modelled as insertion-ordered association lists over String keys: the source
never iterates any of these maps (except to JSON-encode them for a debug
print that does not affect state), so the only map operations that matter are
first-match lookup, zero-value reads of missing keys, and assignment; the
list order additionally records discovery (insertion) order, which the spec
refers to as "first-discovered order".

External effects are modelled explicitly:
  * the plugin registry call ListPlugins (whose implementation is outside the
    examined sources) is a parameter, modelled from the spec as either an
    error or a sequence of plugins;
  * running an external plugin binary and JSON-decoding its stdout
    (exec.Command + json.Decoder.Decode in fetchExternalManifest) is modelled
    by an ExecResult oracle stored in the Plugin value, capturing the
    documented Go semantics of Decode including the case where Decode
    returns a non-nil error after having populated some struct fields;
  * the optional in-process manifest capability (the PluginWithManifest type
    assertion) is modelled by a BuiltinCapability field.
-/

namespace KnPlugin

/-- Go type ContextData = map[string]string: a flat string-to-string map,
modelled as an insertion-ordered association list. -/
abbrev ContextData := List (String × String)

/-- First-match association-list lookup: the model of reading a Go map
(`v, ok := m[k]`). -/
def lookupA {α : Type} : List (String × α) → String → Option α
  | [], _ => none
  | (k, v) :: t, key => if k = key then some v else lookupA t key

/-- Go map read returning the zero value when the key is absent (`m[k]`). -/
def lookupD {α : Type} (l : List (String × α)) (key : String) (d : α) : α :=
  (lookupA l key).getD d

/-- Go map assignment (`m[k] = v`): replace the first binding of the key if it
exists, otherwise append a new binding at the end (insertion order). -/
def setA {α : Type} : List (String × α) → String → α → List (String × α)
  | [], key, v => [(key, v)]
  | (k, w) :: t, key, v => if k = key then (key, v) :: t else (k, w) :: setA t key v

/-- Manifest (context_sharing.go lines 33-50). Field names follow the Go
struct: Path (json "path"), HasManifest (json "hasManifest"),
ProducesContextDataKeys (json "producesKeys"), ConsumesContextDataKeys
(json "consumesKeys"). Go nil slices are modelled as empty lists. -/
structure Manifest where
  Path : String
  HasManifest : Bool
  ProducesContextDataKeys : List String
  ConsumesContextDataKeys : List String
deriving DecidableEq, Repr

/-- The Go zero value Manifest (returned by a map read of an absent key):
empty path, HasManifest false, nil key slices. -/
def Manifest.zero : Manifest :=
  { Path := ""
    HasManifest := false
    ProducesContextDataKeys := []
    ConsumesContextDataKeys := [] }

/-- The set of Manifest struct fields that a single json.Decoder.Decode call
populated in its target before returning. Per the documented semantics of
Go encoding/json, Decode on a syntactically valid JSON object assigns every
field whose JSON value has the right type and, if some field's JSON value
has a mismatched type, still assigns the remaining well-typed fields and
returns a non-nil UnmarshalTypeError at the end; on a syntax error it
assigns nothing. A field holds some v when the decoder assigned v to it and
none when the decoder left the pre-existing value in place. -/
structure JsonFields where
  path : Option String
  hasManifest : Option Bool
  producesKeys : Option (List String)
  consumesKeys : Option (List String)
deriving DecidableEq, Repr

/-- Apply the fields assigned by one json Decode call on top of the
pre-initialized target struct (decoding into a non-zero struct keeps the
old value of every field the decoder does not assign). -/
def decodeInto (m : Manifest) (f : JsonFields) : Manifest :=
  { Path := f.path.getD m.Path
    HasManifest := f.hasManifest.getD m.HasManifest
    ProducesContextDataKeys := f.producesKeys.getD m.ProducesContextDataKeys
    ConsumesContextDataKeys := f.consumesKeys.getD m.ConsumesContextDataKeys }

/-- Oracle for the boundary effects of fetchExternalManifest on one plugin:
the outcome of running the external binary with the single argument
"manifest" and JSON-decoding its standard output.
  * runError: cmd.Run() returned a non-nil error (launch failure or non-zero
    exit); nothing was decoded.
  * decodeError fields: cmd.Run() succeeded but Decode returned a non-nil
    error, having populated exactly the given fields beforehand (all none
    for a JSON syntax error, possibly some for a type error, per the Go
    encoding/json semantics documented on JsonFields).
  * decodeOk fields: Decode succeeded, having populated the given fields. -/
inductive ExecResult where
  | runError : ExecResult
  | decodeError (fields : JsonFields) : ExecResult
  | decodeOk (fields : JsonFields) : ExecResult
deriving DecidableEq, Repr

/-- Modelled from the spec: a built-in (in-process) plugin MAY additionally
expose the optional manifest capability (the PluginWithManifest interface,
declared outside the examined sources): either it does not implement the
interface (the type assertion in FetchManifests fails), or it implements it
and GetManifest() returns the given optional Manifest (a Go *Manifest,
which may be nil = none). -/
inductive BuiltinCapability where
  | noCapability : BuiltinCapability
  | capability (result : Option Manifest) : BuiltinCapability
deriving DecidableEq, Repr

/-- Modelled from the spec: one plugin as seen by the manager. Name and Path
are the Plugin interface accessors (Path is empty exactly for built-in,
in-process plugins). The exec field is the behavior oracle used when
Path is non-empty; the builtin field is the capability used when Path is
empty. -/
structure Plugin where
  Name : String
  Path : String
  exec : ExecResult
  builtin : BuiltinCapability
deriving DecidableEq, Repr

/-- fetchExternalManifest (context_sharing.go lines 164-185): build the
manifest pre-initialized with the plugin's path and HasManifest=false;
return it unchanged if cmd.Run() fails; return it as partially decoded if
Decode fails; on successful decode, force HasManifest to true. It returns
a non-nil *Manifest on every path. -/
def fetchExternalManifest (p : Plugin) : Manifest :=
  let manifest : Manifest :=
    { Path := p.Path
      HasManifest := false
      ProducesContextDataKeys := []
      ConsumesContextDataKeys := [] }
  match p.exec with
  | .runError => manifest
  | .decodeError fields => decodeInto manifest fields
  | .decodeOk fields => { decodeInto manifest fields with HasManifest := true }

/-- The per-plugin manifest acquisition inside the FetchManifests loop
(context_sharing.go lines 125-136): for an external plugin (non-empty path)
use fetchExternalManifest (always non-nil); for a built-in plugin use the
optional capability, which yields nil when the plugin does not implement it
or when GetManifest() itself returns nil. -/
def fetchedManifest (p : Plugin) : Option Manifest :=
  if p.Path ≠ "" then some (fetchExternalManifest p)
  else
    match p.builtin with
    | .noCapability => none
    | .capability r => r

/-- ContextDataManager state (context_sharing.go lines 62-67). Field names
follow the Go struct. -/
structure ContextDataManager where
  ContextData : List (String × ContextData)
  Producers : List (String × List String)
  Consumers : List (String × List String)
  Manifests : List (String × Manifest)
deriving DecidableEq, Repr

/-- The manager state with four empty maps, as built by NewContextManager. -/
def emptyManager : ContextDataManager :=
  { ContextData := []
    Producers := []
    Consumers := []
    Manifests := [] }

/-- NewContextManager (context_sharing.go lines 69-94): if the process-wide
singleton already exists, return it; otherwise build a manager with four
empty maps. The code that would load the persisted cache file is commented
out in the source, so the contents of the cache file (second argument,
none when the file is absent) are ignored. -/
def NewContextManager (ctxManager : Option ContextDataManager)
    (_cacheFile : Option ContextDataManager) : ContextDataManager :=
  match ctxManager with
  | some m => m
  | none => emptyManager

/-- GetContext (context_sharing.go lines 96-99): read the named context map;
an absent name yields the Go zero value (nil map, modelled as []). -/
def ContextDataManager.GetContext (c : ContextDataManager) (key : String) :
    KnPlugin.ContextData :=
  lookupD c.ContextData key []

/-- GetDefault (context_sharing.go lines 101-104). -/
def ContextDataManager.GetDefault (c : ContextDataManager) : KnPlugin.ContextData :=
  c.GetContext "default"

/-- GetConsumesKeys (context_sharing.go lines 106-109): the consumed-keys
slice of the stored manifest, where an absent plugin name yields the zero
Manifest and hence a nil slice. -/
def ContextDataManager.GetConsumesKeys (c : ContextDataManager) (pluginName : String) :
    List String :=
  (lookupD c.Manifests pluginName Manifest.zero).ConsumesContextDataKeys

/-- GetProducesKeys (context_sharing.go lines 111-114). -/
def ContextDataManager.GetProducesKeys (c : ContextDataManager) (pluginName : String) :
    List String :=
  (lookupD c.Manifests pluginName Manifest.zero).ProducesContextDataKeys

/-- The index-extension loops of FetchManifests (context_sharing.go
lines 142-149): for each key of the stored manifest, in order, append the
plugin name at the end of that key's list in the index map. -/
def addKeys (idx : List (String × List String)) (pluginName : String)
    (keys : List String) : List (String × List String) :=
  keys.foldl (fun acc key => setA acc key (lookupD acc key [] ++ [pluginName])) idx

/-- The state mutation performed by one loop iteration of FetchManifests that
stores a (non-nil) manifest (context_sharing.go lines 140-149): record the
manifest under the plugin name (a fresh key, hence appended at the end in
discovery order) and extend the producers and consumers indexes. -/
def step (c : ContextDataManager) (p : Plugin) (m : Manifest) : ContextDataManager :=
  { c with
    Manifests := c.Manifests ++ [(p.Name, m)]
    Producers := addKeys c.Producers p.Name m.ProducesContextDataKeys
    Consumers := addKeys c.Consumers p.Name m.ConsumesContextDataKeys }

/-- Result of running the plugin loop of FetchManifests: the final manager
state and the names of the plugins for which a manifest fetch was
attempted (i.e. the plugin was reached by the loop and was not already
present in the Manifests map). -/
structure LoopOut where
  state : ContextDataManager
  fetched : List String
deriving DecidableEq, Repr

/-- The plugin loop of FetchManifests (context_sharing.go lines 122-151):
process the plugins in registry order; skip a plugin whose name already has
a Manifests entry; otherwise fetch its manifest, and if the fetch yields
nil, return immediately (early return of the whole call, remaining plugins
unprocessed), else store the manifest and extend the indexes. -/
def processPlugins : ContextDataManager → List Plugin → LoopOut
  | c, [] => ⟨c, []⟩
  | c, p :: rest =>
    match lookupA c.Manifests p.Name with
    | some _ => processPlugins c rest
    | none =>
      match fetchedManifest p with
      | none => ⟨c, [p.Name]⟩
      | some m =>
        ⟨(processPlugins (step c p m) rest).state,
          p.Name :: (processPlugins (step c p m) rest).fetched⟩

/-- Modelled from the spec: the outcome of the registry call
pluginManager.ListPlugins() (its implementation is outside the examined
sources): either an enumeration error or the sequence of installed
plugins. -/
inductive ListPluginsResult where
  | err (msg : String) : ListPluginsResult
  | ok (plugins : List Plugin) : ListPluginsResult
deriving DecidableEq, Repr

/-- Observable outcome of one FetchManifests call: the manager state after
the call, the names for which a fetch was attempted during the call, and
the returned error. -/
structure FetchOutcome where
  state : ContextDataManager
  fetched : List String
  error : Option String
deriving DecidableEq, Repr

/-- FetchManifests (context_sharing.go lines 117-160): if ListPlugins fails,
propagate its error with the state untouched; otherwise run the plugin
loop and return nil. The trailing debug JSON encode of the Manifests map
does not modify the state and returns nil even when the encoder fails, so
the success branch always yields a nil error. -/
def ContextDataManager.FetchManifests (c : ContextDataManager)
    (pluginList : ListPluginsResult) : FetchOutcome :=
  match pluginList with
  | .err msg => ⟨c, [], some msg⟩
  | .ok ps => ⟨(processPlugins c ps).state, (processPlugins c ps).fetched, none⟩

/-- WriteCache (context_sharing.go lines 189-199): serialize the full manager
state as JSON and write it to the context.json cache file. The JSON
encoding of the manager's maps is injective and is never decoded anywhere
in the source, so the written file content is represented by the manager
state it encodes. -/
def ContextDataManager.WriteCache (c : ContextDataManager) : ContextDataManager := c

/-- The manager state reached from a fresh process (no singleton, no cache)
by a sequence of FetchManifests calls with the given registry outcomes. -/
def runFetches (calls : List ListPluginsResult) : ContextDataManager :=
  calls.foldl (fun c r => (c.FetchManifests r).state) (NewContextManager none none)

/-- Number of occurrences of a key in a list of keys. -/
def countKey : List String → String → Nat
  | [], _ => 0
  | x :: t, key => countKey t key + (if x = key then 1 else 0)

/-- Replay derivation of one index from the stored manifests map: for each
stored manifest in first-discovered order, the owning plugin's name once
per occurrence of the key in the manifest's key list (proj selects the
produces or consumes list). -/
def replayIdx (proj : Manifest → List String) :
    List (String × Manifest) → String → List String
  | [], _ => []
  | (n, m) :: t, k => List.replicate (countKey (proj m) k) n ++ replayIdx proj t k

/-- The plugin names, in first-discovered order, whose stored manifest's key
list (selected by proj) contains the key. -/
def pluginsDeclaring (proj : Manifest → List String) :
    List (String × Manifest) → String → List String
  | [], _ => []
  | (n, m) :: t, k =>
    if k ∈ proj m then n :: pluginsDeclaring proj t k else pluginsDeclaring proj t k

/-- Whether the plugin loop runs through the whole given plugin list without
taking the early-return branch (no reached, not-yet-known plugin has a nil
manifest fetch). -/
def runsThrough : ContextDataManager → List Plugin → Bool
  | _, [] => true
  | c, p :: rest =>
    match lookupA c.Manifests p.Name with
    | some _ => runsThrough c rest
    | none =>
      match fetchedManifest p with
      | none => false
      | some m => runsThrough (step c p m) rest

/-- Invariant: both indexes are exactly the replay derivation of the stored
manifests map (pointwise over keys). -/
def IndexInv (c : ContextDataManager) : Prop :=
  ∀ k : String,
    lookupD c.Producers k [] = replayIdx Manifest.ProducesContextDataKeys c.Manifests k ∧
    lookupD c.Consumers k [] = replayIdx Manifest.ConsumesContextDataKeys c.Manifests k

/-- Example external plugin whose manifest command succeeds but prints a JSON
object with a well-typed producesKeys field and an ill-typed consumesKeys
field, so that json Decode populates producesKeys and then returns a
non-nil error, leaving HasManifest false. -/
def pluginTypeErr : Plugin :=
  { Name := "p"
    Path := "/bin/p"
    exec := .decodeError
      { path := none, hasManifest := none, producesKeys := some ["k"], consumesKeys := none }
    builtin := .noCapability }

/-- Example external plugin whose manifest output starts with a well-typed
path field and a well-typed producesKeys field and then hits a type error:
Decode populates both fields (overwriting the pre-set plugin path) and
returns a non-nil error. -/
def pluginPathErr : Plugin :=
  { Name := "q"
    Path := "/bin/q"
    exec := .decodeError
      { path := some "/evil", hasManifest := none, producesKeys := some ["k"]
        consumesKeys := none }
    builtin := .noCapability }

/-- Example built-in plugin that does not implement the optional manifest
capability. -/
def pluginNoCap : Plugin :=
  { Name := "b", Path := "", exec := .runError, builtin := .noCapability }

/-- Example external plugin whose manifest command fails to run (non-zero
exit). -/
def pluginExtFail : Plugin :=
  { Name := "e", Path := "/bin/e", exec := .runError, builtin := .noCapability }

/-- Example external plugin with a successfully decoded manifest declaring one
produced key and one consumed key. -/
def pluginOk : Plugin :=
  { Name := "w"
    Path := "/bin/w"
    exec := .decodeOk
      { path := none, hasManifest := none, producesKeys := some ["svc"]
        consumesKeys := some ["ns"] }
    builtin := .noCapability }

/-- The manifest declared by pluginOk once fetched and stored. -/
def manifestW : Manifest :=
  { Path := "/bin/w"
    HasManifest := true
    ProducesContextDataKeys := ["svc"]
    ConsumesContextDataKeys := ["ns"] }

/-- Example manager state with non-empty context data and a stored manifest. -/
def managerRich : ContextDataManager :=
  { ContextData := [("default", [("service", "hello"), ("namespace", "default")])]
    Producers := [("svc", ["w"])]
    Consumers := [("ns", ["w"])]
    Manifests := [("w", manifestW)] }

theorem lookupA_append_left {α : Type} {l₁ : List (String × α)} {k : String} {v : α}
    (h : lookupA l₁ k = some v) (l₂ : List (String × α)) :
    lookupA (l₁ ++ l₂) k = some v := by
  induction l₁ with
  | nil => simp [lookupA] at h
  | cons hd t ih =>
    obtain ⟨k', w⟩ := hd
    by_cases hk : k' = k
    · simp [lookupA, hk] at h ⊢
      exact h
    · simp [lookupA, hk] at h ⊢
      exact ih h

theorem lookupA_append_right {α : Type} {l₁ : List (String × α)} {k : String}
    (h : lookupA l₁ k = none) (l₂ : List (String × α)) :
    lookupA (l₁ ++ l₂) k = lookupA l₂ k := by
  induction l₁ with
  | nil => simp
  | cons hd t ih =>
    obtain ⟨k', w⟩ := hd
    by_cases hk : k' = k
    · simp [lookupA, hk] at h
    · simp [lookupA, hk] at h ⊢
      exact ih h

theorem lookupA_setA_self {α : Type} (l : List (String × α)) (k : String) (v : α) :
    lookupA (setA l k v) k = some v := by
  induction l with
  | nil => simp [setA, lookupA]
  | cons hd t ih =>
    obtain ⟨k', w⟩ := hd
    by_cases hk : k' = k
    · simp [setA, lookupA, hk]
    · simp [setA, lookupA, hk, ih]

theorem lookupA_setA_ne {α : Type} (l : List (String × α)) {k k' : String}
    (h : k' ≠ k) (v : α) :
    lookupA (setA l k v) k' = lookupA l k' := by
  induction l with
  | nil => simp [setA, lookupA, Ne.symm h]
  | cons hd t ih =>
    obtain ⟨k'', w⟩ := hd
    by_cases hk : k'' = k
    · subst hk
      simp [setA, lookupA, Ne.symm h]
    · simp only [setA, if_neg hk]
      by_cases hk' : k'' = k'
      · simp [lookupA, hk']
      · simp [lookupA, hk', ih]

theorem lookupD_setA_self {α : Type} (l : List (String × α)) (k : String) (v d : α) :
    lookupD (setA l k v) k d = v := by
  simp [lookupD, lookupA_setA_self]

theorem lookupD_setA_ne {α : Type} (l : List (String × α)) {k k' : String}
    (h : k' ≠ k) (v d : α) :
    lookupD (setA l k v) k' d = lookupD l k' d := by
  simp [lookupD, lookupA_setA_ne l h]

theorem lookupD_addKeys (idx : List (String × List String)) (pluginName : String)
    (keys : List String) (k : String) :
    lookupD (addKeys idx pluginName keys) k [] =
      lookupD idx k [] ++ List.replicate (countKey keys k) pluginName := by
  induction keys generalizing idx with
  | nil => simp [addKeys, countKey]
  | cons key rest ih =>
    have hstep : addKeys idx pluginName (key :: rest) =
        addKeys (setA idx key (lookupD idx key [] ++ [pluginName])) pluginName rest := by
      simp [addKeys]
    rw [hstep, ih]
    by_cases hk : k = key
    · subst hk
      rw [lookupD_setA_self]
      simp [countKey, List.replicate_succ, List.append_assoc]
    · rw [lookupD_setA_ne _ hk]
      have hk' : ¬ key = k := fun hh => hk hh.symm
      simp [countKey, hk']

theorem replayIdx_append (proj : Manifest → List String) (ms₁ ms₂ : List (String × Manifest))
    (k : String) :
    replayIdx proj (ms₁ ++ ms₂) k = replayIdx proj ms₁ k ++ replayIdx proj ms₂ k := by
  induction ms₁ with
  | nil => simp [replayIdx]
  | cons hd t ih =>
    obtain ⟨n, m⟩ := hd
    simp [replayIdx, ih, List.append_assoc]

theorem countKey_eq_zero {l : List String} {k : String} (h : k ∉ l) : countKey l k = 0 := by
  induction l with
  | nil => simp [countKey]
  | cons x t ih =>
    simp only [List.mem_cons, not_or] at h
    have hx : ¬ x = k := fun hh => h.1 hh.symm
    simp [countKey, ih h.2, hx]

theorem countKey_nodup {l : List String} (h : l.Nodup) (k : String) :
    countKey l k = if k ∈ l then 1 else 0 := by
  induction l with
  | nil => simp [countKey]
  | cons x t ih =>
    rw [List.nodup_cons] at h
    by_cases hk : x = k
    · subst hk
      simp [countKey, countKey_eq_zero h.1]
    · have hk' : ¬ k = x := fun hh => hk hh.symm
      simp [countKey, hk, hk', ih h.2]

theorem replayIdx_eq_pluginsDeclaring (proj : Manifest → List String)
    {ms : List (String × Manifest)} (h : ∀ nm ∈ ms, (proj nm.2).Nodup) (k : String) :
    replayIdx proj ms k = pluginsDeclaring proj ms k := by
  induction ms with
  | nil => simp [replayIdx, pluginsDeclaring]
  | cons hd t ih =>
    obtain ⟨n, m⟩ := hd
    have hm : (proj m).Nodup := h (n, m) (List.mem_cons_self _ _)
    have ht : ∀ nm ∈ t, (proj nm.2).Nodup := fun nm hnm => h nm (List.mem_cons_of_mem _ hnm)
    by_cases hk : k ∈ proj m
    · simp [replayIdx, pluginsDeclaring, countKey_nodup hm, hk, ih ht]
    · simp [replayIdx, pluginsDeclaring, countKey_nodup hm, hk, ih ht]

theorem processPlugins_contextData (ps : List Plugin) (c : ContextDataManager) :
    (processPlugins c ps).state.ContextData = c.ContextData := by
  induction ps generalizing c with
  | nil => simp [processPlugins]
  | cons p rest ih =>
    cases hk : lookupA c.Manifests p.Name with
    | some m => simp [processPlugins, hk, ih]
    | none =>
      cases hf : fetchedManifest p with
      | none => simp [processPlugins, hk, hf]
      | some m => simp [processPlugins, hk, hf, ih, step]

theorem processPlugins_manifests_mono (ps : List Plugin) :
    ∀ {c : ContextDataManager} {n : String} {m : Manifest},
      lookupA c.Manifests n = some m →
      lookupA (processPlugins c ps).state.Manifests n = some m := by
  induction ps with
  | nil =>
    intro c n m h
    simpa [processPlugins] using h
  | cons p rest ih =>
    intro c n m h
    cases hk : lookupA c.Manifests p.Name with
    | some m' => simpa [processPlugins, hk] using ih h
    | none =>
      cases hf : fetchedManifest p with
      | none => simpa [processPlugins, hk, hf] using h
      | some m' =>
        have h' : lookupA (step c p m').Manifests n = some m := by
          simp only [step]
          exact lookupA_append_left h _
        simpa [processPlugins, hk, hf] using ih h'

theorem processPlugins_producers_extend (ps : List Plugin) (c : ContextDataManager)
    (k : String) :
    ∃ t, lookupD (processPlugins c ps).state.Producers k [] = lookupD c.Producers k [] ++ t := by
  induction ps generalizing c with
  | nil => exact ⟨[], by simp [processPlugins]⟩
  | cons p rest ih =>
    cases hk : lookupA c.Manifests p.Name with
    | some m => simpa [processPlugins, hk] using ih c
    | none =>
      cases hf : fetchedManifest p with
      | none => exact ⟨[], by simp [processPlugins, hk, hf]⟩
      | some m =>
        obtain ⟨t, ht⟩ := ih (step c p m)
        refine ⟨List.replicate (countKey m.ProducesContextDataKeys k) p.Name ++ t, ?_⟩
        simp only [processPlugins, hk, hf]
        rw [ht]
        simp [step, lookupD_addKeys, List.append_assoc]

theorem processPlugins_consumers_extend (ps : List Plugin) (c : ContextDataManager)
    (k : String) :
    ∃ t, lookupD (processPlugins c ps).state.Consumers k [] = lookupD c.Consumers k [] ++ t := by
  induction ps generalizing c with
  | nil => exact ⟨[], by simp [processPlugins]⟩
  | cons p rest ih =>
    cases hk : lookupA c.Manifests p.Name with
    | some m => simpa [processPlugins, hk] using ih c
    | none =>
      cases hf : fetchedManifest p with
      | none => exact ⟨[], by simp [processPlugins, hk, hf]⟩
      | some m =>
        obtain ⟨t, ht⟩ := ih (step c p m)
        refine ⟨List.replicate (countKey m.ConsumesContextDataKeys k) p.Name ++ t, ?_⟩
        simp only [processPlugins, hk, hf]
        rw [ht]
        simp [step, lookupD_addKeys, List.append_assoc]

theorem indexInv_empty : IndexInv emptyManager := by
  intro k
  simp [emptyManager, lookupD, lookupA, replayIdx]

theorem indexInv_step {c : ContextDataManager} (h : IndexInv c) (p : Plugin) (m : Manifest) :
    IndexInv (step c p m) := by
  intro k
  constructor
  · show lookupD (addKeys c.Producers p.Name m.ProducesContextDataKeys) k [] = _
    rw [lookupD_addKeys, (h k).1]
    show _ = replayIdx _ (c.Manifests ++ [(p.Name, m)]) k
    rw [replayIdx_append]
    simp [replayIdx]
  · show lookupD (addKeys c.Consumers p.Name m.ConsumesContextDataKeys) k [] = _
    rw [lookupD_addKeys, (h k).2]
    show _ = replayIdx _ (c.Manifests ++ [(p.Name, m)]) k
    rw [replayIdx_append]
    simp [replayIdx]

theorem indexInv_processPlugins (ps : List Plugin) :
    ∀ c : ContextDataManager, IndexInv c → IndexInv (processPlugins c ps).state := by
  induction ps with
  | nil =>
    intro c h
    simpa [processPlugins] using h
  | cons p rest ih =>
    intro c h
    cases hk : lookupA c.Manifests p.Name with
    | some m => simpa [processPlugins, hk] using ih c h
    | none =>
      cases hf : fetchedManifest p with
      | none => simpa [processPlugins, hk, hf] using h
      | some m => simpa [processPlugins, hk, hf] using ih _ (indexInv_step h p m)

theorem indexInv_fetchManifests {c : ContextDataManager} (h : IndexInv c)
    (r : ListPluginsResult) :
    IndexInv (c.FetchManifests r).state := by
  cases r with
  | err msg => simpa [ContextDataManager.FetchManifests] using h
  | ok ps => simpa [ContextDataManager.FetchManifests] using indexInv_processPlugins ps c h

theorem indexInv_foldl (calls : List ListPluginsResult) :
    ∀ c : ContextDataManager, IndexInv c →
      IndexInv (calls.foldl (fun c r => (c.FetchManifests r).state) c) := by
  induction calls with
  | nil =>
    intro c h
    simpa using h
  | cons r rest ih =>
    intro c h
    simpa [List.foldl_cons] using ih _ (indexInv_fetchManifests h r)

theorem indexInv_runFetches (calls : List ListPluginsResult) :
    IndexInv (runFetches calls) := by
  rw [runFetches]
  exact indexInv_foldl calls _ (by simpa [NewContextManager] using indexInv_empty)

theorem processPlugins_not_refetched (ps : List Plugin) :
    ∀ {c : ContextDataManager} {n : String},
      (lookupA c.Manifests n).isSome → n ∉ (processPlugins c ps).fetched := by
  induction ps with
  | nil =>
    intro c n _
    simp [processPlugins]
  | cons p rest ih =>
    intro c n h
    cases hk : lookupA c.Manifests p.Name with
    | some m => simpa [processPlugins, hk] using ih h
    | none =>
      have hne : n ≠ p.Name := by
        intro hn
        rw [hn, hk] at h
        simp at h
      cases hf : fetchedManifest p with
      | none =>
        simp only [processPlugins, hk, hf, List.mem_singleton]
        exact hne
      | some m =>
        have h' : (lookupA (step c p m).Manifests n).isSome := by
          obtain ⟨v, hv⟩ := Option.isSome_iff_exists.mp h
          simp only [step]
          rw [lookupA_append_left hv]
          rfl
        simp only [processPlugins, hk, hf, List.mem_cons, not_or]
        exact ⟨hne, ih h'⟩

theorem processPlugins_idem (ps : List Plugin) :
    ∀ c : ContextDataManager,
      (processPlugins (processPlugins c ps).state ps).state = (processPlugins c ps).state := by
  induction ps with
  | nil =>
    intro c
    simp [processPlugins]
  | cons p rest ih =>
    intro c
    cases hk : lookupA c.Manifests p.Name with
    | some m =>
      have hk2 : lookupA (processPlugins c rest).state.Manifests p.Name = some m :=
        processPlugins_manifests_mono rest hk
      simp only [processPlugins, hk, hk2]
      exact ih c
    | none =>
      cases hf : fetchedManifest p with
      | none => simp [processPlugins, hk, hf]
      | some m =>
        have hm : lookupA (step c p m).Manifests p.Name = some m := by
          simp only [step]
          rw [lookupA_append_right hk]
          simp [lookupA]
        have hk2 :
            lookupA (processPlugins (step c p m) rest).state.Manifests p.Name = some m :=
          processPlugins_manifests_mono rest hm
        simp only [processPlugins, hk, hf, hk2]
        exact ih (step c p m)

theorem processPlugins_append (l₁ : List Plugin) :
    ∀ {c : ContextDataManager}, runsThrough c l₁ = true → ∀ l₂ : List Plugin,
      processPlugins c (l₁ ++ l₂) =
        ⟨(processPlugins (processPlugins c l₁).state l₂).state,
          (processPlugins c l₁).fetched ++
            (processPlugins (processPlugins c l₁).state l₂).fetched⟩ := by
  induction l₁ with
  | nil =>
    intro c _ l₂
    simp [processPlugins]
  | cons p t ih =>
    intro c h l₂
    cases hk : lookupA c.Manifests p.Name with
    | some m =>
      have h' : runsThrough c t = true := by simpa [runsThrough, hk] using h
      simp only [List.cons_append, processPlugins, hk]
      exact ih h' l₂
    | none =>
      cases hf : fetchedManifest p with
      | none =>
        simp [runsThrough, hk, hf] at h
      | some m =>
        have h' : runsThrough (step c p m) t = true := by
          simpa [runsThrough, hk, hf] using h
        simp only [List.cons_append, processPlugins, hk, hf]
        simp [ih h' l₂]

theorem processPlugins_all_external (ps : List Plugin) :
    ∀ {c : ContextDataManager}, (∀ p ∈ ps, p.Path ≠ "") →
      ∀ p ∈ ps, lookupA c.Manifests p.Name = none →
        p.Name ∈ (processPlugins c ps).fetched ∧
        (lookupA (processPlugins c ps).state.Manifests p.Name).isSome := by
  induction ps with
  | nil =>
    intro c _ p hp
    cases hp
  | cons q rest ih =>
    intro c hall p hp hnone
    have hq : q.Path ≠ "" := hall q (List.mem_cons_self _ _)
    have hrest : ∀ p ∈ rest, p.Path ≠ "" := fun p hp => hall p (List.mem_cons_of_mem _ hp)
    have hfq : fetchedManifest q = some (fetchExternalManifest q) := by
      simp [fetchedManifest, hq]
    cases hk : lookupA c.Manifests q.Name with
    | some m =>
      rcases List.mem_cons.mp hp with hpq | hpr
      · rw [hpq] at hnone
        exact absurd (hk.symm.trans hnone) (by simp)
      · simp only [processPlugins, hk]
        exact ih hrest p hpr hnone
    | none =>
      have hm : lookupA (step c q (fetchExternalManifest q)).Manifests q.Name
          = some (fetchExternalManifest q) := by
        simp only [step]
        rw [lookupA_append_right hk]
        simp [lookupA]
      rcases List.mem_cons.mp hp with hpq | hpr
      · subst hpq
        constructor
        · simp only [processPlugins, hk, hfq]
          exact List.mem_cons_self _ _
        · simp only [processPlugins, hk, hfq]
          have := processPlugins_manifests_mono rest hm
          simp [this]
      · by_cases hq2 :
          lookupA (step c q (fetchExternalManifest q)).Manifests p.Name = none
        · have hih := ih hrest p hpr hq2
          constructor
          · simp only [processPlugins, hk, hfq]
            exact List.mem_cons_of_mem _ hih.1
          · simp only [processPlugins, hk, hfq]
            exact hih.2
        · obtain ⟨v, hv⟩ : ∃ v,
              lookupA (step c q (fetchExternalManifest q)).Manifests p.Name = some v := by
            cases hval : lookupA (step c q (fetchExternalManifest q)).Manifests p.Name with
            | none => exact absurd hval hq2
            | some v => exact ⟨v, rfl⟩
          have hsingle : lookupA [(q.Name, fetchExternalManifest q)] p.Name = some v := by
            have hv' := hv
            simp only [step] at hv'
            rw [lookupA_append_right hnone] at hv'
            exact hv'
          have hpn : q.Name = p.Name := by
            by_cases hqq : q.Name = p.Name
            · exact hqq
            · simp [lookupA, hqq] at hsingle
          constructor
          · simp only [processPlugins, hk, hfq]
            rw [← hpn]
            exact List.mem_cons_self _ _
          · simp only [processPlugins, hk, hfq]
            have := processPlugins_manifests_mono rest hv
            simp [this]

/-- C1 (code-bug evidence): evaluating the code at the failing input — an
external plugin whose manifest output decodes with a type error after
populating producesKeys. The stored manifest has HasManifest false, yet
GetProducesKeys returns the non-empty partially-parsed key list and the
plugin name was added to the producers index: the code never consults
HasManifest, contradicting the claimed invariant that HasManifest false
implies both key lists are treated as empty and the plugin appears in no
index entry. -/
theorem c1_hasManifest_false_keys_indexed :
    (lookupA (emptyManager.FetchManifests (.ok [pluginTypeErr])).state.Manifests "p").map
        Manifest.HasManifest = some false
    ∧ (emptyManager.FetchManifests (.ok [pluginTypeErr])).state.GetProducesKeys "p" = ["k"]
    ∧ lookupD (emptyManager.FetchManifests (.ok [pluginTypeErr])).state.Producers "k" []
        = ["p"] := by
  decide

/-- C2: after any sequence of FetchManifests calls starting from a fresh
manager, the producers index at every key is exactly the replay derivation
of the stored manifests map in first-discovered order (one occurrence of
the plugin name per occurrence of the key in its stored producesKeys), and
symmetrically for consumers; when every stored manifest's key lists are
duplicate-free this is precisely the list of plugin names whose stored
manifest contains the key, in first-discovered order. -/
theorem c2_index_is_replay_derivation (calls : List ListPluginsResult) (k : String) :
    lookupD (runFetches calls).Producers k [] =
      replayIdx Manifest.ProducesContextDataKeys (runFetches calls).Manifests k
    ∧ lookupD (runFetches calls).Consumers k [] =
      replayIdx Manifest.ConsumesContextDataKeys (runFetches calls).Manifests k
    ∧ ((∀ nm ∈ (runFetches calls).Manifests, nm.2.ProducesContextDataKeys.Nodup) →
        lookupD (runFetches calls).Producers k [] =
          pluginsDeclaring Manifest.ProducesContextDataKeys (runFetches calls).Manifests k)
    ∧ ((∀ nm ∈ (runFetches calls).Manifests, nm.2.ConsumesContextDataKeys.Nodup) →
        lookupD (runFetches calls).Consumers k [] =
          pluginsDeclaring Manifest.ConsumesContextDataKeys (runFetches calls).Manifests k) := by
  have h := indexInv_runFetches calls k
  refine ⟨h.1, h.2, ?_, ?_⟩
  · intro hnd
    rw [h.1, replayIdx_eq_pluginsDeclaring _ hnd k]
  · intro hnd
    rw [h.2, replayIdx_eq_pluginsDeclaring _ hnd k]

theorem c2_index_is_replay_derivation_witness :
    lookupD (runFetches [.ok [pluginOk]]).Producers "svc" [] =
      replayIdx Manifest.ProducesContextDataKeys (runFetches [.ok [pluginOk]]).Manifests "svc"
    ∧ lookupD (runFetches [.ok [pluginOk]]).Consumers "svc" [] =
      replayIdx Manifest.ConsumesContextDataKeys (runFetches [.ok [pluginOk]]).Manifests "svc"
    ∧ lookupD (runFetches [.ok [pluginOk]]).Producers "svc" [] =
      pluginsDeclaring Manifest.ProducesContextDataKeys (runFetches [.ok [pluginOk]]).Manifests
        "svc"
    ∧ lookupD (runFetches [.ok [pluginOk]]).Consumers "svc" [] =
      pluginsDeclaring Manifest.ConsumesContextDataKeys (runFetches [.ok [pluginOk]]).Manifests
        "svc" := by
  have h := c2_index_is_replay_derivation [.ok [pluginOk]] "svc"
  exact ⟨h.1, h.2.1, h.2.2.1 (by decide), h.2.2.2 (by decide)⟩

/-- C3 counterexample: for the concrete manager managerRich, writing the
cache and then constructing a manager in a fresh process (no singleton
yet) yields the empty manager, whose contextData and manifests maps are
not equal to the originals, refuting the round-trip law as stated. -/
theorem c3_roundtrip_counterexample :
    NewContextManager none (some managerRich.WriteCache) = emptyManager
    ∧ ¬ ((NewContextManager none (some managerRich.WriteCache)).ContextData
            = managerRich.ContextData
          ∧ (NewContextManager none (some managerRich.WriteCache)).Manifests
            = managerRich.Manifests) := by
  decide

/-- C3 amended: the source never loads the persisted cache. Constructing a
manager in a fresh process yields the empty manager whatever WriteCache
previously persisted — so the round-trip law holds only when the original
manager's contextData and manifests maps are empty — and constructing it
in a process whose singleton already exists returns that singleton
unchanged. -/
theorem c3_fresh_manager_ignores_cache (c : ContextDataManager)
    (cache : Option ContextDataManager) :
    NewContextManager none (some c.WriteCache) = emptyManager
    ∧ NewContextManager none cache = emptyManager
    ∧ NewContextManager (some c) cache = c :=
  ⟨rfl, rfl, rfl⟩

/-- C4: running FetchManifests twice in sequence over the same plugin list
leaves the whole manager state (manifests, producers, consumers, context
data) unchanged after the second call, and a plugin name that already has
a Manifests entry — even a no-manifest entry — is never fetched again by
any FetchManifests call on that manager. -/
theorem c4_fetch_idempotent (c : ContextDataManager) (ps : List Plugin) :
    ((c.FetchManifests (.ok ps)).state.FetchManifests (.ok ps)).state
        = (c.FetchManifests (.ok ps)).state
    ∧ ∀ n : String, (lookupA c.Manifests n).isSome →
        n ∉ (c.FetchManifests (.ok ps)).fetched := by
  constructor
  · simpa [ContextDataManager.FetchManifests] using processPlugins_idem ps c
  · intro n h
    simpa [ContextDataManager.FetchManifests] using processPlugins_not_refetched ps h

theorem c4_fetch_idempotent_witness :
    ((managerRich.FetchManifests (.ok [pluginOk, pluginExtFail])).state.FetchManifests
        (.ok [pluginOk, pluginExtFail])).state
      = (managerRich.FetchManifests (.ok [pluginOk, pluginExtFail])).state
    ∧ "w" ∉ (managerRich.FetchManifests (.ok [pluginOk, pluginExtFail])).fetched := by
  have h := c4_fetch_idempotent managerRich [pluginOk, pluginExtFail]
  exact ⟨h.1, h.2 "w" (by decide)⟩

/-- C5: FetchManifests returns a non-nil error exactly when the registry
enumeration fails, the returned error being the enumeration error, and in
that case the manager state is untouched and no fetch is attempted; when
enumeration succeeds the call returns nil whatever the individual manifest
fetches yield. -/
theorem c5_error_iff_enumeration_failure (c : ContextDataManager) (r : ListPluginsResult) :
    ((c.FetchManifests r).error = match r with
      | .err msg => some msg
      | .ok _ => none)
    ∧ (∀ msg, r = .err msg → c.FetchManifests r = ⟨c, [], some msg⟩) := by
  cases r with
  | err msg => exact ⟨rfl, fun msg' h => by cases h; rfl⟩
  | ok ps => exact ⟨rfl, fun msg' h => by cases h⟩

theorem c5_error_iff_enumeration_failure_witness :
    (managerRich.FetchManifests (.err "boom")).error = some "boom"
    ∧ managerRich.FetchManifests (.err "boom") = ⟨managerRich, [], some "boom"⟩ := by
  have h := c5_error_iff_enumeration_failure managerRich (.err "boom")
  exact ⟨h.1, h.2 "boom" rfl⟩

/-- C6 (code-bug evidence): evaluating the code at the failing input — an
external plugin whose manifest output decodes with a type error after
populating the path and producesKeys fields. fetchExternalManifest does
return a manifest with HasManifest false rather than an error, but its
path is the decoded value instead of the plugin's path, and FetchManifests
records it and adds the plugin's name to the producers index,
contradicting the claim that on decode failure the returned path is the
plugin's and no producers/consumers entry gains the name. -/
theorem c6_decode_failure_fields_kept :
    (fetchExternalManifest pluginPathErr).HasManifest = false
    ∧ pluginPathErr.Path = "/bin/q"
    ∧ (fetchExternalManifest pluginPathErr).Path = "/evil"
    ∧ lookupD (emptyManager.FetchManifests (.ok [pluginPathErr])).state.Producers "k" []
        = ["q"] := by
  decide

/-- C7: if the loop of a FetchManifests call reaches a not-yet-known plugin
whose manifest fetch yields nil, the whole call returns at that plugin
with a nil error: the final state is exactly the state accumulated over
the preceding plugins and the remaining plugins are left unprocessed. -/
theorem c7_nil_manifest_early_return (c : ContextDataManager) (pre post : List Plugin)
    (p : Plugin)
    (h₁ : fetchedManifest p = none)
    (h₂ : runsThrough c pre = true)
    (h₃ : lookupA (processPlugins c pre).state.Manifests p.Name = none) :
    c.FetchManifests (.ok (pre ++ p :: post)) =
      ⟨(processPlugins c pre).state, (processPlugins c pre).fetched ++ [p.Name], none⟩ := by
  have happ := processPlugins_append pre h₂ (p :: post)
  have hstep : processPlugins (processPlugins c pre).state (p :: post)
      = ⟨(processPlugins c pre).state, [p.Name]⟩ := by
    simp [processPlugins, h₃, h₁]
  simp only [ContextDataManager.FetchManifests, happ, hstep]

theorem c7_nil_manifest_early_return_witness :
    emptyManager.FetchManifests (.ok ([pluginOk] ++ pluginNoCap :: [pluginExtFail])) =
      ⟨(processPlugins emptyManager [pluginOk]).state,
        (processPlugins emptyManager [pluginOk]).fetched ++ [pluginNoCap.Name], none⟩ :=
  c7_nil_manifest_early_return emptyManager [pluginOk] [pluginExtFail] pluginNoCap
    (by decide) (by decide) (by decide)

/-- C8 (code-bug evidence): evaluating the code at the failing input — a
registry listing a built-in plugin without the manifest capability followed
by an external plugin. The call does not crash and returns nil, but,
contrary to the claim, it records no manifests entry for the built-in
plugin and terminates immediately, leaving the following external plugin
unprocessed, instead of recording a no-manifest outcome and continuing. -/
theorem c8_no_capability_terminates_loop :
    emptyManager.FetchManifests (.ok [pluginNoCap, pluginExtFail]) =
      ⟨emptyManager, ["b"], none⟩
    ∧ lookupA
        (emptyManager.FetchManifests (.ok [pluginNoCap, pluginExtFail])).state.Manifests "b"
        = none
    ∧ lookupA
        (emptyManager.FetchManifests (.ok [pluginNoCap, pluginExtFail])).state.Manifests "e"
        = none := by
  decide

/-- C9: every FetchManifests call leaves the contextData map unchanged,
preserves every existing manifests entry (nothing is removed or
overwritten), and only ever extends each producers and consumers list by
appending at its end. -/
theorem c9_fetch_frame_monotone (c : ContextDataManager) (r : ListPluginsResult) :
    (c.FetchManifests r).state.ContextData = c.ContextData
    ∧ (∀ n m, lookupA c.Manifests n = some m →
        lookupA (c.FetchManifests r).state.Manifests n = some m)
    ∧ (∀ k, ∃ t, lookupD (c.FetchManifests r).state.Producers k []
        = lookupD c.Producers k [] ++ t)
    ∧ (∀ k, ∃ t, lookupD (c.FetchManifests r).state.Consumers k []
        = lookupD c.Consumers k [] ++ t) := by
  cases r with
  | err msg =>
    exact ⟨rfl, fun n m h => h,
      fun k => ⟨[], by simp [ContextDataManager.FetchManifests]⟩,
      fun k => ⟨[], by simp [ContextDataManager.FetchManifests]⟩⟩
  | ok ps =>
    exact ⟨processPlugins_contextData ps c,
      fun n m h => processPlugins_manifests_mono ps h,
      fun k => processPlugins_producers_extend ps c k,
      fun k => processPlugins_consumers_extend ps c k⟩

theorem c9_fetch_frame_monotone_witness :
    (managerRich.FetchManifests (.ok [pluginTypeErr])).state.ContextData
        = managerRich.ContextData
    ∧ lookupA (managerRich.FetchManifests (.ok [pluginTypeErr])).state.Manifests "w"
        = some manifestW
    ∧ (∃ t, lookupD (managerRich.FetchManifests (.ok [pluginTypeErr])).state.Producers "svc" []
        = lookupD managerRich.Producers "svc" [] ++ t)
    ∧ (∃ t, lookupD (managerRich.FetchManifests (.ok [pluginTypeErr])).state.Consumers "ns" []
        = lookupD managerRich.Consumers "ns" [] ++ t) := by
  have h := c9_fetch_frame_monotone managerRich (.ok [pluginTypeErr])
  exact ⟨h.1, h.2.1 "w" manifestW (by decide), h.2.2.1 "svc", h.2.2.2 "ns"⟩

/-- C10: the external manifest fetch is total — for every plugin with a
non-empty path the loop's fetched manifest is some fetchExternalManifest
of it, never nil — so the early-return branch is reachable only through
built-in plugins; consequently, when every listed plugin has a non-empty
path, the call returns nil and every listed plugin whose name was not yet
known gets a fetch attempt and a manifests entry. -/
theorem c10_external_fetch_total (c : ContextDataManager) (ps : List Plugin)
    (h : ∀ p ∈ ps, p.Path ≠ "") :
    (∀ q : Plugin, q.Path ≠ "" → fetchedManifest q = some (fetchExternalManifest q))
    ∧ (c.FetchManifests (.ok ps)).error = none
    ∧ ∀ p ∈ ps, lookupA c.Manifests p.Name = none →
        p.Name ∈ (c.FetchManifests (.ok ps)).fetched
        ∧ (lookupA (c.FetchManifests (.ok ps)).state.Manifests p.Name).isSome := by
  refine ⟨fun q hq => by simp [fetchedManifest, hq], rfl, ?_⟩
  intro p hp hnone
  simpa [ContextDataManager.FetchManifests] using
    processPlugins_all_external ps h p hp hnone

theorem c10_external_fetch_total_witness :
    fetchedManifest pluginExtFail = some (fetchExternalManifest pluginExtFail)
    ∧ (emptyManager.FetchManifests (.ok [pluginOk, pluginExtFail])).error = none
    ∧ "e" ∈ (emptyManager.FetchManifests (.ok [pluginOk, pluginExtFail])).fetched
    ∧ (lookupA (emptyManager.FetchManifests
        (.ok [pluginOk, pluginExtFail])).state.Manifests "e").isSome := by
  have h := c10_external_fetch_total emptyManager [pluginOk, pluginExtFail] (by decide)
  exact ⟨h.1 pluginExtFail (by decide), h.2.1,
    (h.2.2 pluginExtFail (by decide) (by decide)).1,
    (h.2.2 pluginExtFail (by decide) (by decide)).2⟩

end KnPlugin
